import Mathlib

/-!
Shallow embedding of the unzip UFOP core (src/src/ufop/unzip/unzip.go).

The embedding models the body of Unzipper.Do after the command has been
parsed and the archive bytes fetched and handed to the zip reader:

* pre-checks: mime type, source size against the configured archive limit,
  zip parse result, entry count against the configured maximum, and the
  per-entry declared-size scan that runs over all entries before the loop;
* the per-entry loop: UTF-8 validity / GBK fallback name decoding (before
  the directory filter), directory skipping, opening and reading the
  entry's decompressed content (both fatal on failure), token scoping,
  strategy selection by the fixed 100 MiB threshold, and the batched
  barrier every time the launch counter reaches a multiple of 100.

External collaborators (the blob store's fput/rput, the GBK transcoder,
the entry reader) are oracles supplied as input data: each entry carries
the result its reader and name decoder would produce, and an UploadEnv
carries the put capabilities.  The concurrency structure is recorded as an
event trace: a launch event per started goroutine, a barrier event for
each uploadWg.Wait() inside the loop, and a finalJoin event for the
uploadWg.Wait() after the loop.  A task is settled once a barrier or the
final join occurs after its launch; launches after the last such event are
outstanding at return.
-/

namespace Unzip

def UNZIP_MAX_ZIP_FILE_LENGTH : Nat := 1 * 1024 * 1024 * 1024

def UNZIP_MAX_FILE_LENGTH : Nat := 100 * 1024 * 1024

def UNZIP_MAX_FILE_COUNT : Nat := 10

def MAX_UPLOAD_WORKERS : Nat := 100

instance {ε α : Type} [DecidableEq ε] [DecidableEq α] : DecidableEq (Except ε α)
  | Except.ok x, Except.ok y =>
    if h : x = y then isTrue (by rw [h])
    else isFalse (by intro hc; cases hc; exact h rfl)
  | Except.ok _, Except.error _ => isFalse (by intro hc; cases hc)
  | Except.error _, Except.ok _ => isFalse (by intro hc; cases hc)
  | Except.error x, Except.error y =>
    if h : x = y then isTrue (by rw [h])
    else isFalse (by intro hc; cases hc; exact h rfl)

/-- Mirror of the UnzipFile JSON struct: zero values "" stand for absent
(omitempty) fields. -/
structure UnzipFile where
  key : String
  hash : String
  error : String
  deriving DecidableEq, Repr

/-- One record of the parsed archive, together with the responses of the
external collaborators for this entry: gbkDecoded is what utils.Gbk2Utf8
would return on its raw name, openResult what zipFile.Open would return,
and content what ioutil.ReadAll of the opened reader would return. -/
structure ZipEntry where
  rawName : String
  validUtf8 : Bool
  gbkDecoded : Except String String
  isDir : Bool
  uncompressedSize : Nat
  openResult : Except String Unit
  content : Except String (List Nat)
  deriving DecidableEq, Repr

/-- The three configured limits of Unzipper (mac is irrelevant here). -/
structure UnzipperConfig where
  maxZipFileLength : Nat
  maxFileLength : Nat
  maxFileCount : Nat
  deriving DecidableEq, Repr

/-- The fields of req.Src that Do inspects. -/
structure UfopSrc where
  mimeType : String
  fsize : Nat
  deriving DecidableEq, Repr

/-- Blob store capabilities: fio.Put and rio.Put, keyed by the upload
token's scope, the target key, the payload, and (for rput) the declared
total length. -/
structure UploadEnv where
  fput : String → String → List Nat → Except String String
  rput : String → String → List Nat → Nat → Except String String

/-- Which upload capability a launched task invokes; rput carries the
configured chunk size and the declared total length passed to it. -/
inductive Strategy where
  | fput
  | rput (chunkSize : Nat) (declaredLen : Nat)
  deriving DecidableEq, Repr

/-- Concurrency-relevant events of a run, in program order: one launch per
started goroutine, one barrier per in-loop uploadWg.Wait(), and finalJoin
for the uploadWg.Wait() after the loop. -/
inductive Event where
  | launch (key : String) (strat : Strategy)
  | barrier
  | finalJoin
  deriving DecidableEq, Repr

/-- ChunkSize of the rio.Settings installed by Do. -/
def rputChunkSize : Nat := 4 * 1024 * 1024

/-- The rputThreshold local of Do. -/
def rputThreshold : Nat := 100 * 1024 * 1024

/-- Name decoding as in the loop head: keep the name when utf8.Valid,
otherwise use the GBK transcoding result. -/
def decodedName (e : ZipEntry) : Except String String :=
  if e.validUtf8 then Except.ok e.rawName else e.gbkDecoded

/-- The strategy the goroutine body picks for a declared file size. -/
def selectStrategy (fileSize : Nat) : Strategy :=
  if fileSize ≤ rputThreshold then Strategy.fput
  else Strategy.rput rputChunkSize fileSize

/-- Outcome recording shared by both branches of the goroutine body: a put
failure becomes the error field, a success becomes the hash field. -/
def recordOutcome (key : String) (r : Except String String) : UnzipFile :=
  match r with
  | Except.ok h => { key := key, hash := h, error := "" }
  | Except.error m =>
      { key := key, hash := "", error := "save unzip file to bucket error, " ++ m }

/-- The goroutine body: direct put at or below the threshold, resumable
put with the declared length above it. -/
def uploadOne (env : UploadEnv) (uptoken key : String) (data : List Nat)
    (fileSize : Nat) : UnzipFile :=
  if fileSize ≤ rputThreshold then recordOutcome key (env.fput uptoken key data)
  else recordOutcome key (env.rput uptoken key data fileSize)

/-- Scope of the put policy the token is minted from: bucket:key when
overwrite is set, the bare bucket otherwise. -/
def scopeFor (bucket : String) (overwrite : Bool) (key : String) : String :=
  if overwrite then bucket ++ ":" ++ key else bucket

/-- Result of a run: the value/error Do returns, plus the event trace. -/
structure RunResult where
  outcome : Except String (List UnzipFile)
  trace : List Event
  deriving DecidableEq, Repr

/-- The per-entry loop of Do (lines 227-304): name decoding, directory
skip, open and read of the content (both fatal), counter increment, the
batch barrier when the counter reaches a multiple of 100, and the launch.
Outcomes are collected in launch order; the trailing finalJoin models the
uploadWg.Wait() after the loop, which only runs when the loop completes. -/
def uploadLoop (env : UploadEnv) (bucket pfx : String) (overwrite : Bool)
    (counter : Nat) : List ZipEntry → RunResult
  | [] => { outcome := Except.ok [], trace := [Event.finalJoin] }
  | e :: rest =>
    match decodedName e with
    | Except.error m =>
        { outcome := Except.error ("unsupported file name encoding, " ++ m),
          trace := [] }
    | Except.ok name =>
      if e.isDir then uploadLoop env bucket pfx overwrite counter rest
      else
        match e.openResult with
        | Except.error m =>
            { outcome := Except.error ("open zip file content failed, " ++ m),
              trace := [] }
        | Except.ok _ =>
          match e.content with
          | Except.error m =>
              { outcome := Except.error ("unzip the file content failed, " ++ m),
                trace := [] }
          | Except.ok data =>
            let key := pfx ++ name
            let r := uploadLoop env bucket pfx overwrite (counter + 1) rest
            { outcome := r.outcome.map
                (fun fs =>
                  uploadOne env (scopeFor bucket overwrite key) key data
                    e.uncompressedSize :: fs),
              trace :=
                (if (counter + 1) % MAX_UPLOAD_WORKERS = 0 then
                  [Event.barrier,
                    Event.launch key (selectStrategy e.uncompressedSize)]
                else [Event.launch key (selectStrategy e.uncompressedSize)]) ++
                  r.trace }

/-- Unzipper.Do from the mime-type check on, with the parsed command
(bucket, pfx, overwrite) and the zip-reader result supplied as inputs. -/
def Do (cfg : UnzipperConfig) (env : UploadEnv) (src : UfopSrc)
    (bucket pfx : String) (overwrite : Bool)
    (zipParse : Except String (List ZipEntry)) : RunResult :=
  if ¬(src.mimeType = "application/zip" ∨
      src.mimeType = "application/x-zip-compressed") then
    { outcome := Except.error "unsupported mimetype to unzip", trace := [] }
  else if cfg.maxZipFileLength < src.fsize then
    { outcome := Except.error "src zip file length exceeds the limit", trace := [] }
  else
    match zipParse with
    | Except.error m =>
        { outcome := Except.error ("invalid zip file, " ++ m), trace := [] }
    | Except.ok zipFiles =>
      if cfg.maxFileCount < zipFiles.length then
        { outcome := Except.error "zip files count exceeds the limit", trace := [] }
      else if ∃ f ∈ zipFiles, cfg.maxFileLength < f.uncompressedSize then
        { outcome := Except.error "zip file length exceeds the limit", trace := [] }
      else uploadLoop env bucket pfx overwrite 0 zipFiles

/-- Running count of launches since the last barrier or join. -/
def stepOut (n : Nat) (e : Event) : Nat :=
  match e with
  | Event.launch _ _ => n + 1
  | Event.barrier => 0
  | Event.finalJoin => 0

/-- Outstanding-task count after a trace, starting from s outstanding. -/
def outFrom (s : Nat) (tr : List Event) : Nat := tr.foldl stepOut s

/-- Tasks still outstanding (launched, not yet covered by a barrier or the
final join) at the end of a trace. -/
def outstanding (tr : List Event) : Nat := outFrom 0 tr

/-- Peak outstanding-task count over all prefixes of a trace. -/
def maxOutFrom (s : Nat) : List Event → Nat
  | [] => s
  | e :: tr => max s (maxOutFrom (stepOut s e) tr)

/-- Whether some launch in the trace used the resumable (chunked) put. -/
def hasRputLaunch (tr : List Event) : Bool :=
  tr.any fun e =>
    match e with
    | Event.launch _ (Strategy.rput _ _) => true
    | _ => false

/-- Keys the spec expects in the report: pfx ++ decodedName over the
non-directory entries, in enumeration order. -/
def expectedKeys (pfx : String) (entries : List ZipEntry) : List String :=
  entries.filterMap fun e =>
    if e.isDir then none
    else
      match decodedName e with
      | Except.ok n => some (pfx ++ n)
      | Except.error _ => none

/-- Number of non-directory entries. -/
def nonDirCount (entries : List ZipEntry) : Nat :=
  (entries.filter fun e => !e.isDir).length

/-- Boolean success test for an Except value. -/
def exOk {α : Type} (r : Except String α) : Bool :=
  match r with
  | Except.ok _ => true
  | Except.error _ => false

/-- Length of the outcome list of a successful run, 0 on error. -/
def okLength (r : Except String (List UnzipFile)) : Nat :=
  match r with
  | Except.ok fs => fs.length
  | Except.error _ => 0

/-- An entry whose collaborators do not force a fatal error: its name
decodes, and (for non-directories) open and read succeed. -/
def entryWellFormed (e : ZipEntry) : Bool :=
  exOk (decodedName e) && (e.isDir || (exOk e.openResult && exOk e.content))

/-- The default configuration installed by InitConfig when the JSON file
sets no limits. -/
def cfgDefault : UnzipperConfig :=
  ⟨UNZIP_MAX_ZIP_FILE_LENGTH, UNZIP_MAX_FILE_LENGTH, UNZIP_MAX_FILE_COUNT⟩

/-- Default limits except for a raised entry-count cap. -/
def cfgWide : UnzipperConfig := ⟨UNZIP_MAX_ZIP_FILE_LENGTH, UNZIP_MAX_FILE_LENGTH, 200⟩

/-- A small zip source request. -/
def srcZip : UfopSrc := ⟨"application/zip", 1024⟩

/-- A blob store that accepts every put. -/
def envOk : UploadEnv := ⟨fun _ _ _ => Except.ok "FhGQ", fun _ _ _ _ => Except.ok "FhGQ"⟩

/-- A blob store that rejects every put. -/
def envFail : UploadEnv :=
  ⟨fun _ _ _ => Except.error "net down", fun _ _ _ _ => Except.error "net down"⟩

/-- A regular entry with a valid UTF-8 name and readable content. -/
def fileEntry (nm : String) (sz : Nat) : ZipEntry :=
  ⟨nm, true, Except.ok nm, false, sz, Except.ok (), Except.ok []⟩

/-- A directory entry with a valid UTF-8 name. -/
def dirEntry (nm : String) : ZipEntry :=
  ⟨nm, true, Except.ok nm, true, 0, Except.ok (), Except.ok []⟩

/-- A regular entry whose content read fails (truncated archive). -/
def badContentEntry (nm : String) : ZipEntry :=
  ⟨nm, true, Except.ok nm, false, 1, Except.ok (), Except.error "boom"⟩

/-- A directory entry whose non-UTF-8 name fails GBK transcoding. -/
def badNameDir : ZipEntry :=
  ⟨"xx", false, Except.error "bad gbk", true, 0, Except.ok (), Except.ok []⟩

/-- The spec's concrete scenario: a.txt, the directory b/, and b/c.txt. -/
def entriesA : List ZipEntry :=
  [fileEntry "a.txt" 10, dirEntry "b/", fileEntry "b/c.txt" 20]

/-- 100 good entries followed by one whose content read fails: the read
failure strikes right after the batch barrier has fired. -/
def entriesB : List ZipEntry :=
  List.replicate 100 (fileEntry "a" 1) ++ [badContentEntry "z"]

/-- A good entry followed by a last entry over the per-entry limit. -/
def entriesC : List ZipEntry :=
  [fileEntry "a" 1, fileEntry "big" (UNZIP_MAX_FILE_LENGTH + 1)]

/-- A single good entry. -/
def entriesD : List ZipEntry := [fileEntry "a" 1]

/-- A directory with an undecodable name, then a well-formed file. -/
def entriesE : List ZipEntry := [badNameDir, fileEntry "ok" 1]

/-- Eleven entries, one more than the default count cap. -/
def entriesG : List ZipEntry := List.replicate 11 (fileEntry "a" 1)

/-- The outcome recorded for entriesD when every put fails with net down. -/
def failOutcome : UnzipFile :=
  { key := "a", hash := "", error := "save unzip file to bucket error, net down" }

theorem uploadOne_key (env : UploadEnv) (tk k : String) (d : List Nat) (n : Nat) :
    (uploadOne env tk k d n).key = k := by
  unfold uploadOne recordOutcome
  split
  · split <;> rfl
  · split <;> rfl

theorem uploadLoop_ok_spec (env : UploadEnv) (bucket pfx : String) (overwrite : Bool) :
    ∀ (entries : List ZipEntry) (counter : Nat) (files : List UnzipFile),
    (uploadLoop env bucket pfx overwrite counter entries).outcome = Except.ok files →
    files.map UnzipFile.key = expectedKeys pfx entries ∧
    files.length = nonDirCount entries ∧
    ∀ f ∈ files, ∃ tk k d n, f = uploadOne env tk k d n := by
  intro entries
  induction entries with
  | nil =>
    intro counter files h
    simp only [uploadLoop] at h
    cases h
    simp [expectedKeys, nonDirCount]
  | cons e rest ih =>
    intro counter files h
    simp only [uploadLoop] at h
    split at h
    next m hdn => simp at h
    next name hdn =>
      split at h
      next hdir =>
        obtain ⟨h1, h2, h3⟩ := ih counter files h
        refine ⟨?_, ?_, h3⟩
        · rw [h1]; simp [expectedKeys, hdir]
        · rw [h2]; simp [nonDirCount, hdir]
      next hdir =>
        split at h
        next m hop => simp at h
        next u hop =>
          split at h
          next m hct => simp at h
          next data hct =>
            cases hr : (uploadLoop env bucket pfx overwrite (counter + 1) rest).outcome with
            | error m => rw [hr] at h; simp [Except.map] at h
            | ok fs =>
              rw [hr] at h
              simp only [Except.map, Except.ok.injEq] at h
              obtain ⟨h1, h2, h3⟩ := ih (counter + 1) fs hr
              subst h
              refine ⟨?_, ?_, ?_⟩
              · simp only [List.map_cons, uploadOne_key, h1]
                simp [expectedKeys, hdir, hdn]
              · simp only [List.length_cons, h2]
                simp [nonDirCount, hdir]
              · intro f hf
                rcases List.mem_cons.mp hf with hf | hf
                · exact ⟨scopeFor bucket overwrite (pfx ++ name), pfx ++ name, data,
                    e.uncompressedSize, hf⟩
                · exact h3 f hf

theorem uploadLoop_ok_decodes (env : UploadEnv) (bucket pfx : String) (overwrite : Bool) :
    ∀ (entries : List ZipEntry) (counter : Nat) (files : List UnzipFile),
    (uploadLoop env bucket pfx overwrite counter entries).outcome = Except.ok files →
    ∀ e ∈ entries, exOk (decodedName e) = true := by
  intro entries
  induction entries with
  | nil => intro counter files _ x hx; cases hx
  | cons e rest ih =>
    intro counter files h x hx
    simp only [uploadLoop] at h
    split at h
    next m hdn => simp at h
    next name hdn =>
      rcases List.mem_cons.mp hx with rfl | hx
      · simp [exOk, hdn]
      · split at h
        next hdir => exact ih counter files h x hx
        next hdir =>
          split at h
          next m hop => simp at h
          next u hop =>
            split at h
            next m hct => simp at h
            next data hct =>
              cases hr : (uploadLoop env bucket pfx overwrite (counter + 1) rest).outcome with
              | error m => rw [hr] at h; simp [Except.map] at h
              | ok fs => exact ih (counter + 1) fs hr x hx

theorem uploadLoop_wf_ok (env : UploadEnv) (bucket pfx : String) (overwrite : Bool) :
    ∀ (entries : List ZipEntry),
    (∀ e ∈ entries, entryWellFormed e = true) → ∀ counter : Nat,
    ∃ files, (uploadLoop env bucket pfx overwrite counter entries).outcome =
      Except.ok files := by
  intro entries
  induction entries with
  | nil => intro _ counter; exact ⟨[], rfl⟩
  | cons e rest ih =>
    intro hwf counter
    have hwfe : entryWellFormed e = true := hwf e (List.mem_cons_self e rest)
    have hwfr : ∀ x ∈ rest, entryWellFormed x = true :=
      fun x hx => hwf x (List.mem_cons_of_mem e hx)
    simp only [uploadLoop]
    split
    next m hdn => simp [entryWellFormed, exOk, hdn] at hwfe
    next name hdn =>
      split
      next hdir => exact ih hwfr counter
      next hdir =>
        have hne : e.isDir = false := by simpa using hdir
        split
        next m hop => simp [entryWellFormed, exOk, hdn, hne, hop] at hwfe
        next u hop =>
          split
          next m hct => simp [entryWellFormed, exOk, hdn, hne, hct] at hwfe
          next data hct =>
            obtain ⟨fs, hfs⟩ := ih hwfr (counter + 1)
            refine ⟨uploadOne env (scopeFor bucket overwrite (pfx ++ name))
              (pfx ++ name) data e.uncompressedSize :: fs, ?_⟩
            show Except.map _ (uploadLoop env bucket pfx overwrite (counter + 1) rest).outcome =
              Except.ok _
            rw [hfs]
            rfl

theorem uploadLoop_err_noJoin (env : UploadEnv) (bucket pfx : String) (overwrite : Bool) :
    ∀ (entries : List ZipEntry) (counter : Nat) (m : String),
    (uploadLoop env bucket pfx overwrite counter entries).outcome = Except.error m →
    Event.finalJoin ∉ (uploadLoop env bucket pfx overwrite counter entries).trace := by
  intro entries
  induction entries with
  | nil => intro counter m h; simp [uploadLoop] at h
  | cons e rest ih =>
    intro counter m
    simp only [uploadLoop]
    split
    next m' hdn => intro _ hmem; simp at hmem
    next name hdn =>
      split
      next hdir => exact ih counter m
      next hdir =>
        split
        next m' hop => intro _ hmem; simp at hmem
        next u hop =>
          split
          next m' hct => intro _ hmem; simp at hmem
          next data hct =>
            intro h hmem
            simp only [List.mem_append] at hmem
            rcases hmem with hmem | hmem
            · split at hmem <;> simp at hmem
            · cases hr : (uploadLoop env bucket pfx overwrite (counter + 1) rest).outcome with
              | ok fs => rw [hr] at h; simp [Except.map] at h
              | error m2 => exact ih (counter + 1) m2 hr hmem

theorem outFrom_append (s : Nat) (p q : List Event) :
    outFrom s (p ++ q) = outFrom (outFrom s p) q := by
  simp [outFrom, List.foldl_append]

theorem outFrom_ge_of_noReset :
    ∀ (tr : List Event) (s : Nat), Event.barrier ∉ tr → Event.finalJoin ∉ tr →
    s ≤ outFrom s tr := by
  intro tr
  induction tr with
  | nil => intro s _ _; exact le_refl s
  | cons e tr ih =>
    intro s hb hj
    cases e with
    | launch k st =>
      have hb' : Event.barrier ∉ tr := fun h => hb (List.mem_cons_of_mem _ h)
      have hj' : Event.finalJoin ∉ tr := fun h => hj (List.mem_cons_of_mem _ h)
      calc s ≤ s + 1 := Nat.le_succ s
        _ ≤ outFrom (s + 1) tr := ih (s + 1) hb' hj'
    | barrier => exact absurd (List.mem_cons_self _ _) hb
    | finalJoin => exact absurd (List.mem_cons_self _ _) hj

theorem uploadLoop_err_barrier (env : UploadEnv) (bucket pfx : String) (overwrite : Bool) :
    ∀ (entries : List ZipEntry) (counter : Nat) (m : String),
    (uploadLoop env bucket pfx overwrite counter entries).outcome = Except.error m →
    Event.barrier ∈ (uploadLoop env bucket pfx overwrite counter entries).trace →
    ∀ s, 1 ≤ outFrom s (uploadLoop env bucket pfx overwrite counter entries).trace := by
  intro entries
  induction entries with
  | nil => intro counter m h; simp [uploadLoop] at h
  | cons e rest ih =>
    intro counter m
    simp only [uploadLoop]
    split
    next m' hdn => intro _ hb; simp at hb
    next name hdn =>
      split
      next hdir => exact ih counter m
      next hdir =>
        split
        next m' hop => intro _ hb; simp at hb
        next u hop =>
          split
          next m' hct => intro _ hb; simp at hb
          next data hct =>
            intro h hb s
            cases hr : (uploadLoop env bucket pfx overwrite (counter + 1) rest).outcome with
            | ok fs => rw [hr] at h; simp [Except.map] at h
            | error m2 =>
              by_cases hbrt :
                  Event.barrier ∈ (uploadLoop env bucket pfx overwrite (counter + 1) rest).trace
              · rw [outFrom_append]
                exact ih (counter + 1) m2 hr hbrt _
              · by_cases hc : (counter + 1) % MAX_UPLOAD_WORKERS = 0
                · rw [if_pos hc]
                  have hjrt := uploadLoop_err_noJoin env bucket pfx overwrite rest
                    (counter + 1) m2 hr
                  show 1 ≤ outFrom 1 (uploadLoop env bucket pfx overwrite (counter + 1) rest).trace
                  exact outFrom_ge_of_noReset _ 1 hbrt hjrt
                · rw [if_neg hc] at hb ⊢
                  simp only [List.cons_append, List.nil_append, List.mem_cons] at hb
                  rcases hb with hb | hb
                  · exact absurd hb (by simp)
                  · exact absurd hb hbrt

theorem le_maxOutFrom : ∀ (tr : List Event) (s : Nat), s ≤ maxOutFrom s tr := by
  intro tr
  cases tr with
  | nil => intro s; exact le_refl s
  | cons e tr => intro s; exact le_max_left s _

theorem outFrom_le_maxOutFrom : ∀ (p q : List Event) (s : Nat),
    outFrom s p ≤ maxOutFrom s (p ++ q) := by
  intro p
  induction p with
  | nil => intro q s; exact le_maxOutFrom q s
  | cons e p ih =>
    intro q s
    show outFrom (stepOut s e) p ≤ max s (maxOutFrom (stepOut s e) (p ++ q))
    exact le_trans (ih q (stepOut s e)) (le_max_right _ _)

theorem uploadLoop_maxOut (env : UploadEnv) (bucket pfx : String) (overwrite : Bool) :
    ∀ (entries : List ZipEntry) (counter s : Nat),
    s ≤ counter % MAX_UPLOAD_WORKERS + 1 →
    maxOutFrom s (uploadLoop env bucket pfx overwrite counter entries).trace ≤
      MAX_UPLOAD_WORKERS := by
  intro entries
  induction entries with
  | nil =>
    intro counter s hs
    have h100 : counter % MAX_UPLOAD_WORKERS < MAX_UPLOAD_WORKERS :=
      Nat.mod_lt _ (by simp [MAX_UPLOAD_WORKERS])
    simp only [uploadLoop, maxOutFrom, stepOut, max_le_iff]
    omega
  | cons e rest ih =>
    intro counter s hs
    have h100 : counter % MAX_UPLOAD_WORKERS < MAX_UPLOAD_WORKERS :=
      Nat.mod_lt _ (by simp [MAX_UPLOAD_WORKERS])
    have hsb : s ≤ MAX_UPLOAD_WORKERS := by omega
    simp only [uploadLoop]
    split
    next m hdn => simpa [maxOutFrom] using hsb
    next name hdn =>
      split
      next hdir => exact ih counter s hs
      next hdir =>
        split
        next m hop => simpa [maxOutFrom] using hsb
        next u hop =>
          split
          next m hct => simpa [maxOutFrom] using hsb
          next data hct =>
            by_cases hc : (counter + 1) % MAX_UPLOAD_WORKERS = 0
            · rw [if_pos hc]
              have hrt := ih (counter + 1) 1 (by omega)
              simp only [List.cons_append, List.nil_append, maxOutFrom, stepOut, max_le_iff]
              exact ⟨hsb, Nat.zero_le _, hrt⟩
            · rw [if_neg hc]
              have hmod : (counter + 1) % MAX_UPLOAD_WORKERS = counter % MAX_UPLOAD_WORKERS + 1 := by
                simp only [MAX_UPLOAD_WORKERS] at hc ⊢
                omega
              have hrt := ih (counter + 1) (s + 1) (by omega)
              simp only [List.cons_append, List.nil_append, maxOutFrom, stepOut, max_le_iff]
              exact ⟨hsb, hrt⟩

theorem uploadLoop_no_rput (env : UploadEnv) (bucket pfx : String) (overwrite : Bool) :
    ∀ (entries : List ZipEntry),
    (∀ e ∈ entries, e.uncompressedSize ≤ rputThreshold) →
    ∀ counter : Nat,
    hasRputLaunch (uploadLoop env bucket pfx overwrite counter entries).trace = false := by
  intro entries
  induction entries with
  | nil => intro _ counter; rfl
  | cons e rest ih =>
    intro hsz counter
    have hsze := hsz e (List.mem_cons_self e rest)
    have hszr : ∀ x ∈ rest, x.uncompressedSize ≤ rputThreshold :=
      fun x hx => hsz x (List.mem_cons_of_mem e hx)
    simp only [uploadLoop]
    split
    next m hdn => rfl
    next name hdn =>
      split
      next hdir => exact ih hszr counter
      next hdir =>
        split
        next m hop => rfl
        next u hop =>
          split
          next m hct => rfl
          next data hct =>
            have hstrat : selectStrategy e.uncompressedSize = Strategy.fput := by
              simp [selectStrategy, hsze]
            have hrt := ih hszr (counter + 1)
            by_cases hc : (counter + 1) % MAX_UPLOAD_WORKERS = 0
            · rw [if_pos hc]
              simp only [hasRputLaunch, List.any_append, List.any_cons, List.any_nil,
                hstrat] at hrt ⊢
              simpa using hrt
            · rw [if_neg hc]
              simp only [hasRputLaunch, List.any_append, List.any_cons, List.any_nil,
                hstrat] at hrt ⊢
              simpa using hrt

theorem Do_eq_loop (cfg : UnzipperConfig) (env : UploadEnv) (src : UfopSrc)
    (bucket pfx : String) (overwrite : Bool) (entries : List ZipEntry)
    (hm : src.mimeType = "application/zip" ∨ src.mimeType = "application/x-zip-compressed")
    (hz : src.fsize ≤ cfg.maxZipFileLength)
    (hc : entries.length ≤ cfg.maxFileCount)
    (hs : ∀ e ∈ entries, e.uncompressedSize ≤ cfg.maxFileLength) :
    Do cfg env src bucket pfx overwrite (Except.ok entries) =
      uploadLoop env bucket pfx overwrite 0 entries := by
  simp only [Do]
  rw [if_neg (not_not_intro hm), if_neg (Nat.not_lt.mpr hz),
    if_neg (Nat.not_lt.mpr hc), if_neg]
  intro hex
  obtain ⟨f, hf, hlt⟩ := hex
  exact absurd hlt (Nat.not_lt.mpr (hs f hf))

theorem Do_ok_elim (cfg : UnzipperConfig) (env : UploadEnv) (src : UfopSrc)
    (bucket pfx : String) (overwrite : Bool) (zp : Except String (List ZipEntry))
    (files : List UnzipFile)
    (h : (Do cfg env src bucket pfx overwrite zp).outcome = Except.ok files) :
    ∃ entries, zp = Except.ok entries ∧
      (uploadLoop env bucket pfx overwrite 0 entries).outcome = Except.ok files := by
  cases zp with
  | error m =>
    simp only [Do] at h
    split at h
    next => simp at h
    next =>
      split at h
      next => simp at h
      next => simp at h
  | ok entries =>
    simp only [Do] at h
    split at h
    next => simp at h
    next =>
      split at h
      next => simp at h
      next =>
        split at h
        next => simp at h
        next =>
          split at h
          next => simp at h
          next => exact ⟨entries, rfl, h⟩

theorem saveErr_ne_empty (m : String) :
    ("save unzip file to bucket error, " ++ m) ≠ "" := by
  intro h
  have h2 := congrArg String.length h
  simp [String.length_append] at h2
  exact absurd h2.1 (by decide)

/-- C1: a report returned by a successful run has exactly one outcome per
non-directory entry, the multiset of its keys equals the multiset of
pfx ++ decodedName over the non-directory entries (duplicates preserved),
and directory entries contribute no outcome. -/
theorem C1_report_outcomes (cfg : UnzipperConfig) (env : UploadEnv) (src : UfopSrc)
    (bucket pfx : String) (overwrite : Bool) (entries : List ZipEntry)
    (files : List UnzipFile)
    (h : (Do cfg env src bucket pfx overwrite (Except.ok entries)).outcome =
      Except.ok files) :
    files.length = nonDirCount entries ∧
    Multiset.ofList (files.map UnzipFile.key) =
      Multiset.ofList (expectedKeys pfx entries) := by
  obtain ⟨entries', heq, hloop⟩ := Do_ok_elim cfg env src bucket pfx overwrite _ files h
  cases heq
  obtain ⟨h1, h2, _⟩ := uploadLoop_ok_spec env bucket pfx overwrite entries 0 files hloop
  exact ⟨h2, by rw [h1]⟩

/-- Witness for C1 at the spec's concrete scenario (a.txt, b/, b/c.txt with
pfx out/). -/
theorem C1_report_outcomes_witness :
    ([({ key := "out/a.txt", hash := "FhGQ", error := "" } : UnzipFile),
      { key := "out/b/c.txt", hash := "FhGQ", error := "" }].length = nonDirCount entriesA) ∧
    Multiset.ofList (([({ key := "out/a.txt", hash := "FhGQ", error := "" } : UnzipFile),
      { key := "out/b/c.txt", hash := "FhGQ", error := "" }]).map UnzipFile.key) =
      Multiset.ofList (expectedKeys "out/" entriesA) :=
  C1_report_outcomes cfgDefault envOk srcZip "bkt" "out/" false entriesA _ (by decide)

/-- C2 as stated is false on the code: at this input, 100 well-formed
entries are followed by one whose content read fails; the job returns the
fatal extraction error while the task launched right after the batch
barrier is still outstanding — the final join never ran. -/
theorem C2_counterexample :
    (Do cfgWide envOk srcZip "bkt" "" false (Except.ok entriesB)).outcome =
      Except.error "unzip the file content failed, boom" ∧
    Event.barrier ∈ (Do cfgWide envOk srcZip "bkt" "" false (Except.ok entriesB)).trace ∧
    outstanding (Do cfgWide envOk srcZip "bkt" "" false (Except.ok entriesB)).trace = 1 :=
  ⟨rfl, by decide, rfl⟩

/-- C2 (amended): when the job fails fatally with an extraction read error
after at least one batch barrier has fired, the call returns with at least
one task launched since that barrier still outstanding: the final join
does not run on the fatal path; only the tasks of earlier batches are
settled, because the in-loop barriers themselves awaited them. -/
theorem C2_amended_outstanding (cfg : UnzipperConfig) (env : UploadEnv) (src : UfopSrc)
    (bucket pfx : String) (overwrite : Bool) (zp : Except String (List ZipEntry))
    (m : String)
    (h : (Do cfg env src bucket pfx overwrite zp).outcome =
      Except.error ("unzip the file content failed, " ++ m))
    (hb : Event.barrier ∈ (Do cfg env src bucket pfx overwrite zp).trace) :
    1 ≤ outstanding (Do cfg env src bucket pfx overwrite zp).trace := by
  revert h hb
  cases zp with
  | error m2 =>
    simp only [Do]
    split
    next => intro _ hb; simp at hb
    next =>
      split
      next => intro _ hb; simp at hb
      next => intro _ hb; simp at hb
  | ok entries =>
    simp only [Do]
    split
    next => intro _ hb; simp at hb
    next =>
      split
      next => intro _ hb; simp at hb
      next =>
        split
        next => intro _ hb; simp at hb
        next =>
          split
          next => intro _ hb; simp at hb
          next =>
            intro h hb
            exact uploadLoop_err_barrier env bucket pfx overwrite entries 0 _ h hb 0

/-- Witness for the amended C2 at the counterexample input. -/
theorem C2_amended_witness :
    1 ≤ outstanding (Do cfgWide envOk srcZip "bkt" "" false (Except.ok entriesB)).trace :=
  C2_amended_outstanding cfgWide envOk srcZip "bkt" "" false (Except.ok entriesB) "boom"
    rfl (by decide)

/-- C3: with the mime, archive-size and count checks passing, an entry over
the per-entry limit anywhere in the archive — even last — makes Do fail
with the size error before the loop runs: the returned trace is empty, so
no upload was launched and no extraction attempted. -/
theorem C3_oversize_pre_scan (cfg : UnzipperConfig) (env : UploadEnv) (src : UfopSrc)
    (bucket pfx : String) (overwrite : Bool) (entries : List ZipEntry) (e : ZipEntry)
    (hm : src.mimeType = "application/zip" ∨ src.mimeType = "application/x-zip-compressed")
    (hz : src.fsize ≤ cfg.maxZipFileLength)
    (hc : entries.length ≤ cfg.maxFileCount)
    (he : e ∈ entries) (hbig : cfg.maxFileLength < e.uncompressedSize) :
    Do cfg env src bucket pfx overwrite (Except.ok entries) =
      { outcome := Except.error "zip file length exceeds the limit", trace := [] } := by
  simp only [Do]
  rw [if_neg (not_not_intro hm), if_neg (Nat.not_lt.mpr hz),
    if_neg (Nat.not_lt.mpr hc), if_pos ⟨e, he, hbig⟩]

/-- Witness for C3 with the oversized entry last. -/
theorem C3_oversize_witness :
    Do cfgDefault envOk srcZip "bkt" "" false (Except.ok entriesC) =
      { outcome := Except.error "zip file length exceeds the limit", trace := [] } :=
  C3_oversize_pre_scan cfgDefault envOk srcZip "bkt" "" false entriesC
    (fileEntry "big" (UNZIP_MAX_FILE_LENGTH + 1)) (Or.inl rfl) (by decide) (by decide)
    (by decide) (by decide)

/-- C4: the batched barriers bound concurrency by 100: after any prefix of
the event trace of any run, at most MAX_UPLOAD_WORKERS launched tasks are
not yet covered by a barrier or the final join. -/
theorem C4_concurrency_bound (cfg : UnzipperConfig) (env : UploadEnv) (src : UfopSrc)
    (bucket pfx : String) (overwrite : Bool) (zp : Except String (List ZipEntry))
    (p q : List Event)
    (h : (Do cfg env src bucket pfx overwrite zp).trace = p ++ q) :
    outFrom 0 p ≤ MAX_UPLOAD_WORKERS := by
  have hmax : maxOutFrom 0 (Do cfg env src bucket pfx overwrite zp).trace ≤
      MAX_UPLOAD_WORKERS := by
    cases zp with
    | error m =>
      simp only [Do]
      split
      next => simp [maxOutFrom]
      next =>
        split
        next => simp [maxOutFrom]
        next => simp [maxOutFrom]
    | ok entries =>
      simp only [Do]
      split
      next => simp [maxOutFrom]
      next =>
        split
        next => simp [maxOutFrom]
        next =>
          split
          next => simp [maxOutFrom]
          next =>
            split
            next => simp [maxOutFrom]
            next => exact uploadLoop_maxOut env bucket pfx overwrite entries 0 0 (by omega)
  rw [h] at hmax
  exact le_trans (outFrom_le_maxOutFrom p q 0) hmax

/-- Witness for C4 at a one-entry run, split after the launch. -/
theorem C4_concurrency_witness :
    outFrom 0 [Event.launch "a" Strategy.fput] ≤ MAX_UPLOAD_WORKERS :=
  C4_concurrency_bound cfgDefault envOk srcZip "bkt" "" false (Except.ok entriesD)
    [Event.launch "a" Strategy.fput] [Event.finalJoin] (by decide)

/-- C5: the goroutine body selects the upload strategy by the fixed
100 MiB threshold on the declared size: at or below it (zero-length
included) the direct single-shot put is invoked and never the resumable
put; strictly above it the resumable put, configured with the fixed 4 MiB
chunk size and the declared total length, is invoked and never the direct
put. -/
theorem C5_strategy_threshold (env : UploadEnv) (tk k : String) (d : List Nat) (n : Nat) :
    (n ≤ rputThreshold →
      selectStrategy n = Strategy.fput ∧
      uploadOne env tk k d n = recordOutcome k (env.fput tk k d)) ∧
    (rputThreshold < n →
      selectStrategy n = Strategy.rput rputChunkSize n ∧
      uploadOne env tk k d n = recordOutcome k (env.rput tk k d n)) ∧
    rputThreshold = 100 * 1024 * 1024 ∧ rputChunkSize = 4 * 1024 * 1024 := by
  refine ⟨fun hle => ?_, fun hgt => ?_, rfl, rfl⟩
  · simp [selectStrategy, uploadOne, hle]
  · simp [selectStrategy, uploadOne, Nat.not_le.mpr hgt]

/-- Witness for C5 at a zero-length entry and at threshold + 1. -/
theorem C5_strategy_witness :
    (selectStrategy 0 = Strategy.fput ∧
      uploadOne envOk "bkt" "k" [] 0 = recordOutcome "k" (envOk.fput "bkt" "k" [])) ∧
    (selectStrategy (rputThreshold + 1) = Strategy.rput rputChunkSize (rputThreshold + 1) ∧
      uploadOne envOk "bkt" "k" [] (rputThreshold + 1) =
        recordOutcome "k" (envOk.rput "bkt" "k" [] (rputThreshold + 1))) :=
  ⟨(C5_strategy_threshold envOk "bkt" "k" [] 0).1 (by decide),
    (C5_strategy_threshold envOk "bkt" "k" [] (rputThreshold + 1)).2.1 (by decide)⟩

/-- C6: an entry whose name decoding fails (not valid UTF-8 and the GBK
transcoding errors) makes the whole job fail fatally — even when that
entry is a directory and every other entry is well-formed. Name decoding
runs before the directory filter, so no input containing such an entry
ever returns a success outcome. -/
theorem C6_decode_failure_fatal (cfg : UnzipperConfig) (env : UploadEnv) (src : UfopSrc)
    (bucket pfx : String) (overwrite : Bool) (entries : List ZipEntry) (e : ZipEntry)
    (he : e ∈ entries) (hd : exOk (decodedName e) = false) :
    exOk (Do cfg env src bucket pfx overwrite (Except.ok entries)).outcome = false := by
  cases hout : (Do cfg env src bucket pfx overwrite (Except.ok entries)).outcome with
  | error m => rfl
  | ok files =>
    exfalso
    obtain ⟨entries', heq, hloop⟩ := Do_ok_elim cfg env src bucket pfx overwrite _ files hout
    cases heq
    have h2 := uploadLoop_ok_decodes env bucket pfx overwrite entries 0 files hloop e he
    rw [hd] at h2
    cases h2

/-- Witness for C6: a directory entry with an undecodable name next to a
well-formed file entry. -/
theorem C6_decode_failure_witness :
    exOk (Do cfgDefault envOk srcZip "bkt" "" false (Except.ok entriesE)).outcome = false :=
  C6_decode_failure_fatal cfgDefault envOk srcZip "bkt" "" false entriesE badNameDir
    (by decide) (by decide)

/-- C7: upload failures are entry-isolated: for any blob store behaviour —
in particular one failing every put of either strategy — a job whose
pre-checks pass and whose entries all decode, open and read returns a
success outcome carrying exactly one outcome per non-directory entry; no
upload failure surfaces as the call's error. -/
theorem C7_upload_failure_isolated (cfg : UnzipperConfig) (env : UploadEnv) (src : UfopSrc)
    (bucket pfx : String) (overwrite : Bool) (entries : List ZipEntry)
    (hm : src.mimeType = "application/zip" ∨ src.mimeType = "application/x-zip-compressed")
    (hz : src.fsize ≤ cfg.maxZipFileLength)
    (hc : entries.length ≤ cfg.maxFileCount)
    (hs : ∀ e ∈ entries, e.uncompressedSize ≤ cfg.maxFileLength)
    (hwf : ∀ e ∈ entries, entryWellFormed e = true) :
    exOk (Do cfg env src bucket pfx overwrite (Except.ok entries)).outcome = true ∧
    okLength (Do cfg env src bucket pfx overwrite (Except.ok entries)).outcome =
      nonDirCount entries := by
  rw [Do_eq_loop cfg env src bucket pfx overwrite entries hm hz hc hs]
  obtain ⟨files, hfl⟩ := uploadLoop_wf_ok env bucket pfx overwrite entries hwf 0
  obtain ⟨_, h2, _⟩ := uploadLoop_ok_spec env bucket pfx overwrite entries 0 files hfl
  rw [hfl]
  exact ⟨rfl, by simp [okLength, h2]⟩

/-- Witness for C7 with a blob store failing every put. -/
theorem C7_upload_failure_witness :
    exOk (Do cfgDefault envFail srcZip "bkt" "out/" false (Except.ok entriesA)).outcome = true ∧
    okLength (Do cfgDefault envFail srcZip "bkt" "out/" false (Except.ok entriesA)).outcome =
      nonDirCount entriesA :=
  C7_upload_failure_isolated cfgDefault envFail srcZip "bkt" "out/" false entriesA
    (Or.inl rfl) (by decide) (by decide) (by decide) (by decide)

/-- C8: provided the blob store returns a nonempty hash on every
successful put (qiniu etags are nonempty strings), every outcome recorded
by a successful job has exactly one of its hash/error fields set: a
nonempty hash with an empty error, or an empty hash with a nonempty
error — never both, never neither. -/
theorem C8_exactly_one (cfg : UnzipperConfig) (env : UploadEnv) (src : UfopSrc)
    (bucket pfx : String) (overwrite : Bool) (zp : Except String (List ZipEntry))
    (files : List UnzipFile) (f : UnzipFile)
    (hf : ∀ tk k d h, env.fput tk k d = Except.ok h → h ≠ "")
    (hr : ∀ tk k d n h, env.rput tk k d n = Except.ok h → h ≠ "")
    (hok : (Do cfg env src bucket pfx overwrite zp).outcome = Except.ok files)
    (hmem : f ∈ files) :
    (f.hash ≠ "" ∧ f.error = "") ∨ (f.hash = "" ∧ f.error ≠ "") := by
  obtain ⟨entries, _, hloop⟩ := Do_ok_elim cfg env src bucket pfx overwrite zp files hok
  obtain ⟨_, _, h3⟩ := uploadLoop_ok_spec env bucket pfx overwrite entries 0 files hloop
  obtain ⟨tk, k, d, n, hfu⟩ := h3 f hmem
  subst hfu
  unfold uploadOne
  split
  · cases hp : env.fput tk k d with
    | ok h => exact Or.inl ⟨hf tk k d h hp, rfl⟩
    | error m => exact Or.inr ⟨rfl, saveErr_ne_empty m⟩
  · cases hp : env.rput tk k d n with
    | ok h => exact Or.inl ⟨hr tk k d n h hp, rfl⟩
    | error m => exact Or.inr ⟨rfl, saveErr_ne_empty m⟩

/-- Witness for C8 at a one-entry run against a failing blob store. -/
theorem C8_exactly_one_witness :
    (failOutcome.hash ≠ "" ∧ failOutcome.error = "") ∨
    (failOutcome.hash = "" ∧ failOutcome.error ≠ "") :=
  C8_exactly_one cfgDefault envFail srcZip "bkt" "" false (Except.ok entriesD)
    [failOutcome] failOutcome
    (fun _ _ _ _ hp => nomatch hp) (fun _ _ _ _ _ hp => nomatch hp) (by decide)
    (List.mem_singleton.mpr rfl)

/-- C9: with the mime and archive-size checks passing, an entry count over
the configured maximum makes the job fail with the count error before
anything else happens: the trace is empty, so zero upload calls were
issued and the error outcome carries no per-entry report. -/
theorem C9_too_many_entries (cfg : UnzipperConfig) (env : UploadEnv) (src : UfopSrc)
    (bucket pfx : String) (overwrite : Bool) (entries : List ZipEntry)
    (hm : src.mimeType = "application/zip" ∨ src.mimeType = "application/x-zip-compressed")
    (hz : src.fsize ≤ cfg.maxZipFileLength)
    (hc : cfg.maxFileCount < entries.length) :
    Do cfg env src bucket pfx overwrite (Except.ok entries) =
      { outcome := Except.error "zip files count exceeds the limit", trace := [] } := by
  simp only [Do]
  rw [if_neg (not_not_intro hm), if_neg (Nat.not_lt.mpr hz), if_pos hc]

/-- Witness for C9: 11 entries against the default maximum of 10. -/
theorem C9_too_many_witness :
    Do cfgDefault envOk srcZip "bkt" "" false (Except.ok entriesG) =
      { outcome := Except.error "zip files count exceeds the limit", trace := [] } :=
  C9_too_many_entries cfgDefault envOk srcZip "bkt" "" false entriesG (Or.inl rfl)
    (by decide) (by decide)

/-- C10: when the per-entry limit is the default 100 MiB — equal to the
direct-put threshold — the resumable chunked put is unreachable: on every
input, the trace of the run contains no resumable-put launch, because the
pre-scan admits only entries at or below the threshold. -/
theorem C10_rput_unreachable (cfg : UnzipperConfig) (env : UploadEnv) (src : UfopSrc)
    (bucket pfx : String) (overwrite : Bool) (zp : Except String (List ZipEntry))
    (h : cfg.maxFileLength = UNZIP_MAX_FILE_LENGTH) :
    hasRputLaunch (Do cfg env src bucket pfx overwrite zp).trace = false := by
  cases zp with
  | error m =>
    simp only [Do]
    split
    next => rfl
    next =>
      split
      next => rfl
      next => rfl
  | ok entries =>
    simp only [Do]
    split
    next => rfl
    next =>
      split
      next => rfl
      next =>
        split
        next => rfl
        next =>
          split
          next => rfl
          next hbig =>
            apply uploadLoop_no_rput
            intro e he
            have hnl : ¬cfg.maxFileLength < e.uncompressedSize :=
              fun hlt => hbig ⟨e, he, hlt⟩
            have h2 : e.uncompressedSize ≤ cfg.maxFileLength := Nat.not_lt.mp hnl
            rw [h] at h2
            simpa [UNZIP_MAX_FILE_LENGTH, rputThreshold] using h2

/-- Witness for C10 at the default configuration. -/
theorem C10_rput_witness :
    hasRputLaunch (Do cfgDefault envOk srcZip "bkt" "out/" false
      (Except.ok entriesA)).trace = false :=
  C10_rput_unreachable cfgDefault envOk srcZip "bkt" "out/" false (Except.ok entriesA) rfl

end Unzip
